/-
Verification of the curve-fitting utility library (funcs.py / maths_functions.py).

The numeric domain of the source is IEEE float64; this development works in
exact arithmetic: the significant-figure rounding routines are embedded over
ℚ (every operation they perform — powers of ten, floor, base-10 integer
logarithm, round-half-to-even — is exact on rationals), and the fitting
pipeline over ℝ (it takes real square roots).  Python exceptions are
modelled with Except: a function that can raise returns Except Err α.
NumPy float arithmetic itself never raises on division by zero (it yields
inf/nan); in the real-valued model the junk value of division by zero is
the Lean convention x / 0 = 0.  Either way no exception occurs, which is
the observable fact the error-handling claims are about.
-/
import Mathlib

/-- np.rint / the rounding mode of np.round: round to the nearest integer,
ties to even. -/
def rint (q : ℚ) : ℤ :=
  if Int.fract q < 1 / 2 then ⌊q⌋
  else if 1 / 2 < Int.fract q then ⌊q⌋ + 1
  else if ⌊q⌋ % 2 = 0 then ⌊q⌋ else ⌊q⌋ + 1

/-- np.round(q, d): round q at decimal place d (d may be negative, as in
np.round(x, -2)), half to even. -/
def np_round (q : ℚ) (d : ℤ) : ℚ :=
  (rint (q * 10 ^ d) : ℚ) / 10 ^ d

/-- The leading decimal digit of a positive rational:
np.floor(u / 10 ** np.floor(np.log10(u))) in the source.  Int.log 10 u is
exactly ⌊log10 u⌋ for u > 0. -/
def leadDigit (u : ℚ) : ℤ :=
  ⌊u / 10 ^ Int.log 10 u⌋

/-- Python exceptions raised by the rounding routines:
IndexError from an out-of-bounds array access, ValueError from
int(nan) after np.log10 of a nonpositive number. -/
inductive PyErr where
  | indexError
  | valueError
  deriving DecidableEq, Repr

/-- The per-element body shared verbatim by the scalar branch (source lines
162-173) and the loop body of the array branch (lines 143-158) of
round_sig_fig_uncertainty: if the uncertainty is 0 pass the pair through;
otherwise round the uncertainty at the decimal place of its leading digit
(one extra place if that digit is 1), then round the value at the decimal
place given by the ROUNDED uncertainty's leading digit. -/
def elemRoundUnc (value uncertainty : ℚ) : ℚ × ℚ :=
  if uncertainty = 0 then (value, uncertainty)
  else if leadDigit uncertainty ≠ 1 then
    let uncertainty_rnd := np_round uncertainty (-(Int.log 10 uncertainty))
    (np_round value (-(Int.log 10 uncertainty_rnd)), uncertainty_rnd)
  else
    let uncertainty_rnd := np_round uncertainty (1 - Int.log 10 uncertainty)
    (np_round value (1 - Int.log 10 uncertainty_rnd), uncertainty_rnd)

/-- round_sig_fig_uncertainty on a scalar pair (source lines 161-173).
A negative uncertainty makes np.log10 return nan and int(nan) raise
ValueError in the source, modelled by the error case. -/
def round_sig_fig_uncertainty (value uncertainty : ℚ) : Except PyErr (ℚ × ℚ) :=
  if uncertainty < 0 then .error .valueError
  else .ok (elemRoundUnc value uncertainty)

/-- round_sig_fig_uncertainty on a pair of 1-D arrays (source lines
138-159): iterate over the indices of value, reading uncertainty[i] —
which raises IndexError once i is past the end of uncertainty — and apply
the per-element rule; entries of uncertainty beyond the length of value
are never read. -/
def round_sig_fig_uncertainty_list : List ℚ → List ℚ → Except PyErr (List ℚ × List ℚ)
  | [], _ => .ok ([], [])
  | _ :: _, [] => .error .indexError
  | v :: vs, u :: us => do
    let p ← round_sig_fig_uncertainty v u
    let rest ← round_sig_fig_uncertainty_list vs us
    .ok (p.1 :: rest.1, p.2 :: rest.2)

/-- np.searchsorted(arr, v, side="left") on a sorted array: the leftmost
insertion index, i.e. the number of leading elements strictly below v. -/
def np_searchsorted_left (arr : List ℚ) (v : ℚ) : ℕ :=
  (arr.takeWhile (fun a => decide (a < v))).length

/-- find_nearest_index (source lines 177-195): a bare left-sided
searchsorted. -/
def find_nearest_index (value : ℚ) (arr : List ℚ) : ℕ :=
  np_searchsorted_left arr value

/-- The exponent printed by np.format_float_scientific(q, n): the base-10
exponent of |q|, bumped by one when the mantissa rounded to n decimal
places reaches 10 (e.g. 9.996 at 2 places prints as 1.00e+01). -/
def sciExpo (q : ℚ) (n : ℕ) : ℤ :=
  if q = 0 then 0
  else if rint (|q| / 10 ^ Int.log 10 |q| * 10 ^ (n : ℤ)) = 10 ^ (n + 1)
    then Int.log 10 |q| + 1
  else Int.log 10 |q|

/-- round_sig_fig on a scalar (source lines 290-299): read the exponent
expo from the scientific-notation formatting of the value at precision n,
then np.round the value at decimal place -(expo - n + 1). -/
def round_sig_fig (q : ℚ) (n : ℕ) : ℚ :=
  np_round q (-(sciExpo q n - (n : ℤ) + 1))

/-- An array of rank r+1, matching NumPy's rectangular ndarray shape:
rank 1 is a flat list of scalars, rank r+2 is a list of rank-(r+1) slices. -/
def Arr : ℕ → Type
  | 0 => List ℚ
  | r + 1 => List (Arr r)

/-- round_sig_fig on an array (source lines 300-318): on a 1-D array round
each entry; on a higher-rank array recurse over the leading axis. -/
def round_sig_fig_arr : (r : ℕ) → Arr r → ℕ → Arr r
  | 0, xs, n => xs.map (fun q => round_sig_fig q n)
  | r + 1, xs, n => xs.map (fun a => round_sig_fig_arr r a n)

/-- All scalar entries of an array, in row-major order. -/
def arrFlatten : (r : ℕ) → Arr r → List ℚ
  | 0, xs => xs
  | r + 1, xs => (xs.map (arrFlatten r)).flatten

/-- residuals (source lines 4-31): (y - func(p, x)) / s, elementwise over
the N data points. -/
noncomputable def residuals {N k : ℕ} (p : Fin k → ℝ)
    (func : (Fin k → ℝ) → ℝ → ℝ) (x y : Fin N → ℝ) (s : ℝ) : Fin N → ℝ :=
  fun i => (y i - func p (x i)) / s

/-- What scipy.optimize.least_squares hands back at its solution: the
solution vector r.x and the Jacobian r.jac of the residual vector with
respect to the parameters.  The solver itself is an external collaborator;
fitting is parametric in it. -/
structure LeastSquaresResult (N k : ℕ) where
  x : Fin k → ℝ
  jac : Matrix (Fin N) (Fin k) ℝ

/-- The type of the external least-squares solver: from an objective
(residual function of the parameters) and an initial guess to a result. -/
def Solver (N k : ℕ) : Type :=
  ((Fin k → ℝ) → Fin N → ℝ) → (Fin k → ℝ) → LeastSquaresResult N k

/-- The one exception the fitting pipeline can raise:
numpy.linalg.LinAlgError from np.linalg.inv of a singular matrix. -/
inductive FitError where
  | singularMatrix
  deriving DecidableEq, Repr

open scoped Classical in
/-- fitting (source lines 33-79): run the solver on the s-weighted
residuals, approximate the Hessian as jacᵀ·jac, invert it (np.linalg.inv
raises exactly on a singular matrix) to get the covariance matrix, take
the square roots of its diagonal as raw parameter uncertainties, rescale
them by beta = sqrt(Σ residuals(p_fit, func, x, y, s=1)² / (N - k)), and
report the reduced chi-squared recomputed with per-point sigma beta.
The source also rescales K_fit by beta; that value is dead (never
returned) and is omitted.  N - k is Python int subtraction, hence the
casts to ℝ before subtracting. -/
noncomputable def fitting {N k : ℕ} (ls : Solver N k) (p : Fin k → ℝ)
    (x y : Fin N → ℝ) (func : (Fin k → ℝ) → ℝ → ℝ) (s : ℝ) :
    Except FitError ((Fin k → ℝ) × ℝ × (Fin k → ℝ)) :=
  let r := ls (fun q => residuals q func x y s) p
  let p_fit := r.x
  let hessian := r.jac.transpose * r.jac
  if hessian.det = 0 then .error .singularMatrix
  else
    let K_fit := hessian⁻¹
    let unc_fit := fun i : Fin k => Real.sqrt (K_fit i i)
    let beta := Real.sqrt ((∑ i, residuals p_fit func x y 1 i ^ 2) / ((N : ℝ) - (k : ℝ)))
    let unc_fit2 := fun i => unc_fit i * beta
    let chi := (∑ i, residuals p_fit func x y beta i ^ 2) / ((N : ℝ) - (k : ℝ))
    .ok (p_fit, chi, unc_fit2)

/-- fitting_params_only (source lines 81-112): run the same solver call
and return only the solution vector. -/
noncomputable def fitting_params_only {N k : ℕ} (ls : Solver N k)
    (p : Fin k → ℝ) (x y : Fin N → ℝ) (func : (Fin k → ℝ) → ℝ → ℝ)
    (s : ℝ) : Fin k → ℝ :=
  (ls (fun q => residuals q func x y s) p).x

/-- residuals_data (source lines 197-220): (observed - expected) / s. -/
noncomputable def residuals_data {N : ℕ} (observed expected : Fin N → ℝ)
    (s : ℝ) : Fin N → ℝ :=
  fun i => (observed i - expected i) / s

/-- chi2 (source lines 222-241): Σ residuals_data(observed, expected, s)². -/
noncomputable def chi2 {N : ℕ} (observed expected : Fin N → ℝ) (s : ℝ) : ℝ :=
  ∑ i, residuals_data observed expected s i ^ 2

/-- Concrete scenario A, one data point and one parameter (N = k = 1):
a solver stub answering p_fit = (1) with Jacobian (1). -/
noncomputable def lsA : Solver 1 1 :=
  fun _ _ => ⟨fun _ => 1, Matrix.of fun _ _ => 1⟩

/-- Scenario A model function: the constant function p₀. -/
def funcA : (Fin 1 → ℝ) → ℝ → ℝ :=
  fun p _ => p 0

/-- Concrete scenario B, two data points and one parameter (N = 2, k = 1):
a solver stub answering p_fit = (1) with Jacobian (1, 1)ᵀ. -/
noncomputable def lsB : Solver 2 1 :=
  fun _ _ => ⟨fun _ => 1, Matrix.of fun _ _ => 1⟩

/-- Scenario B data: y = (0, 2), fitted by the constant model at its
mean 1, so the two unweighted residuals are ∓1. -/
def yB : Fin 2 → ℝ :=
  ![0, 2]

lemma rint_le (q : ℚ) : (rint q : ℚ) ≤ q + 1 / 2 := by
  have hfl := Int.floor_le q
  have hf : Int.fract q = q - ⌊q⌋ := rfl
  unfold rint
  split_ifs with h1 h2 h3
  · linarith
  · push_cast
    linarith
  · linarith
  · push_cast
    linarith

lemma le_rint (q : ℚ) : q - 1 / 2 ≤ (rint q : ℚ) := by
  have hfl := Int.floor_le q
  have hlt := Int.fract_lt_one q
  have hf : Int.fract q = q - ⌊q⌋ := rfl
  unfold rint
  split_ifs with h1 h2 h3
  · linarith
  · push_cast
    linarith
  · linarith
  · push_cast
    linarith

lemma rint_eq_of_abs_lt {q : ℚ} {K : ℤ} (h : |q - (K : ℚ)| < 1 / 2) :
    rint q = K := by
  rw [abs_sub_lt_iff] at h
  obtain ⟨h1, h2⟩ := h
  rcases le_or_lt (K : ℚ) q with hq | hq
  · have hfl : ⌊q⌋ = K := by
      rw [Int.floor_eq_iff]
      constructor
      · exact_mod_cast hq
      · linarith
    have hfr : Int.fract q < 1 / 2 := by
      have hd : Int.fract q = q - ⌊q⌋ := rfl
      rw [hd, hfl]
      linarith
    unfold rint
    rw [if_pos hfr, hfl]
  · have hfl : ⌊q⌋ = K - 1 := by
      rw [Int.floor_eq_iff]
      constructor
      · push_cast
        linarith
      · push_cast
        linarith
    have hfr : 1 / 2 < Int.fract q := by
      have hd : Int.fract q = q - ⌊q⌋ := rfl
      rw [hd, hfl]
      push_cast
      linarith
    unfold rint
    rw [if_neg (by linarith), if_pos hfr, hfl]
    omega

lemma rint_neg (q : ℚ) : rint (-q) = -rint q := by
  by_cases h0 : Int.fract q = 0
  · obtain ⟨z, hz⟩ : ∃ z : ℤ, q = (z : ℚ) := by
      refine ⟨⌊q⌋, ?_⟩
      have hd : Int.fract q = q - ⌊q⌋ := rfl
      rw [hd] at h0
      linarith
    subst hz
    have h1 : Int.fract ((z : ℚ)) = 0 := Int.fract_intCast z
    have h2 : Int.fract (-(z : ℚ)) = 0 := by
      rw [← Int.cast_neg]
      exact Int.fract_intCast _
    have h3 : ⌊(z : ℚ)⌋ = z := Int.floor_intCast z
    have h4 : ⌊-(z : ℚ)⌋ = -z := by
      rw [← Int.cast_neg]
      exact Int.floor_intCast _
    unfold rint
    rw [if_pos (by rw [h2]; norm_num), if_pos (by rw [h1]; norm_num), h3, h4]
  · have hf : Int.fract (-q) = 1 - Int.fract q := Int.fract_neg h0
    have hpos : 0 < Int.fract q := lt_of_le_of_ne (Int.fract_nonneg q) (Ne.symm h0)
    have hlt : Int.fract q < 1 := Int.fract_lt_one q
    have hfl : ⌊-q⌋ = -⌊q⌋ - 1 := by
      have e1 : Int.fract (-q) = -q - ⌊-q⌋ := rfl
      have e2 : Int.fract q = q - ⌊q⌋ := rfl
      have h5 : (⌊-q⌋ : ℚ) = (-⌊q⌋ : ℤ) - 1 := by
        rw [e1, e2] at hf
        push_cast
        linarith
      exact_mod_cast h5
    unfold rint
    rw [hf, hfl]
    split_ifs <;> first | omega | linarith

lemma np_round_neg (q : ℚ) (d : ℤ) : np_round (-q) d = -np_round q d := by
  unfold np_round
  rw [neg_mul, rint_neg]
  push_cast
  ring

lemma ten_zpow_pos (d : ℤ) : (0:ℚ) < 10 ^ d :=
  zpow_pos (by norm_num) d

lemma Int_log_eq_of {r : ℚ} {e : ℤ} (h1 : 0 < r) (h2 : (10:ℚ) ^ e ≤ r)
    (h3 : r < 10 ^ (e + 1)) : Int.log 10 r = e := by
  have ha : e ≤ Int.log 10 r := (Int.zpow_le_iff_le_log (by norm_num) h1).mp h2
  have hb : Int.log 10 r < e + 1 := (Int.lt_zpow_iff_log_lt (by norm_num) h1).mp h3
  omega

lemma mantissa_lb {a : ℚ} (ha : 0 < a) : 1 ≤ a / 10 ^ Int.log 10 a := by
  rw [le_div_iff₀ (ten_zpow_pos _), one_mul]
  exact Int.zpow_log_le_self (by norm_num) ha

lemma mantissa_ub (a : ℚ) : a / 10 ^ Int.log 10 a < 10 := by
  rw [div_lt_iff₀ (ten_zpow_pos _)]
  have h0 := Int.lt_zpow_succ_log_self (by norm_num : (1:ℕ) < 10) a
  have h : a < (10:ℚ) ^ (Int.log 10 a + 1) := by exact_mod_cast h0
  have he : (10:ℚ) ^ (Int.log 10 a + 1) = 10 * 10 ^ Int.log 10 a := by
    rw [zpow_add₀ (by norm_num : (10:ℚ) ≠ 0), zpow_one]
    ring
  rw [he] at h
  linarith

lemma cross_of_rint {m : ℚ} {n : ℕ}
    (h : rint (m * 10 ^ (n : ℤ)) = 10 ^ (n + 1)) :
    10 - 1 / 2 * (10:ℚ) ^ (-(n : ℤ)) ≤ m := by
  have hle := rint_le (m * 10 ^ (n : ℤ))
  rw [h] at hle
  have hcast : (((10 : ℤ) ^ (n + 1) : ℤ) : ℚ) = 10 * 10 ^ (n : ℤ) := by
    push_cast
    rw [zpow_natCast, pow_succ]
    ring
  rw [hcast] at hle
  have ht : (0:ℚ) < 10 ^ (n : ℤ) := ten_zpow_pos _
  have hinv : (10:ℚ) ^ (-(n : ℤ)) * 10 ^ (n : ℤ) = 1 := by
    rw [← zpow_add₀ (by norm_num : (10:ℚ) ≠ 0)]
    norm_num
  have h2 : (10 - 1 / 2 * (10:ℚ) ^ (-(n : ℤ))) * 10 ^ (n : ℤ) ≤ m * 10 ^ (n : ℤ) := by
    have hexp : (10 - 1 / 2 * (10:ℚ) ^ (-(n : ℤ))) * 10 ^ (n : ℤ)
        = 10 * 10 ^ (n : ℤ) - 1 / 2 * ((10:ℚ) ^ (-(n : ℤ)) * 10 ^ (n : ℤ)) := by
      ring
    rw [hexp, hinv]
    linarith
  exact le_of_mul_le_mul_right h2 ht

lemma cross_mono {m : ℚ} {u v : ℕ} (huv : u ≤ v)
    (h : 10 - 1 / 2 * (10:ℚ) ^ (-(v : ℤ)) ≤ m) :
    10 - 1 / 2 * (10:ℚ) ^ (-(u : ℤ)) ≤ m := by
  have hz : (10:ℚ) ^ (-(v : ℤ)) ≤ 10 ^ (-(u : ℤ)) :=
    zpow_le_zpow_right₀ (by norm_num) (by omega)
  linarith

lemma cross_round (a : ℚ) (n : ℕ)
    (hm : 10 - 1 / 2 * (10:ℚ) ^ (-(n : ℤ)) ≤ a / 10 ^ Int.log 10 a) :
    np_round a ((n : ℤ) - 1 - Int.log 10 a) = 10 ^ (Int.log 10 a + 1) := by
  have h10 : (10:ℚ) ≠ 0 := by norm_num
  set e := Int.log 10 a with he
  have hub : a / 10 ^ e < 10 := mantissa_ub a
  have ht : (0:ℚ) < 10 ^ (n : ℤ) := ten_zpow_pos _
  have hxeq : a * 10 ^ ((n : ℤ) - 1 - e) = a / 10 ^ e * (10 ^ (n : ℤ) / 10) := by
    have hz : (10:ℚ) ^ ((n : ℤ) - 1 - e) = 10 ^ (n : ℤ) / 10 / 10 ^ e := by
      rw [zpow_sub₀ h10, zpow_sub₀ h10, zpow_one]
    rw [hz]
    ring
  have hcast : (((10 : ℤ) ^ n : ℤ) : ℚ) = 10 ^ (n : ℤ) := by
    push_cast
    rw [zpow_natCast]
  have hmlow : (10 - 1 / 2 * (10:ℚ) ^ (-(n : ℤ))) * (10 ^ (n : ℤ) / 10)
      ≤ a / 10 ^ e * (10 ^ (n : ℤ) / 10) := by
    apply mul_le_mul_of_nonneg_right hm
    positivity
  have hinv : (10:ℚ) ^ (-(n : ℤ)) * 10 ^ (n : ℤ) = 1 := by
    rw [← zpow_add₀ h10]
    norm_num
  have hsimp : (10 - 1 / 2 * (10:ℚ) ^ (-(n : ℤ))) * (10 ^ (n : ℤ) / 10)
      = 10 ^ (n : ℤ) - 1 / 20 := by
    have hexp : (10 - 1 / 2 * (10:ℚ) ^ (-(n : ℤ))) * (10 ^ (n : ℤ) / 10)
        = 10 ^ (n : ℤ) - 1 / 20 * ((10:ℚ) ^ (-(n : ℤ)) * 10 ^ (n : ℤ)) := by
      ring
    rw [hexp, hinv]
    ring
  rw [hsimp] at hmlow
  have hrint : rint (a * 10 ^ ((n : ℤ) - 1 - e)) = (10 : ℤ) ^ n := by
    apply rint_eq_of_abs_lt
    rw [hxeq, hcast, abs_sub_lt_iff]
    constructor
    · nlinarith
    · nlinarith
  unfold np_round
  rw [hrint, hcast, ← zpow_sub₀ h10]
  congr 1
  ring

lemma sciExpo_neg (q : ℚ) (n : ℕ) : sciExpo (-q) n = sciExpo q n := by
  unfold sciExpo
  simp only [abs_neg, neg_eq_zero]

lemma np_round_of_pos_eq_neg (q : ℚ) (d : ℤ) : np_round q d = -np_round (-q) d := by
  rw [np_round_neg, neg_neg]

lemma round_sig_fig_pos_eq {q : ℚ} (hpos : 0 < q) {n : ℕ} (hn : 1 ≤ n) :
    round_sig_fig q n = np_round q ((n : ℤ) - 1 - Int.log 10 q) := by
  have habs : |q| = q := abs_of_pos hpos
  unfold round_sig_fig sciExpo
  rw [if_neg (ne_of_gt hpos), habs]
  by_cases hc : rint (q / 10 ^ Int.log 10 q * 10 ^ (n : ℤ)) = 10 ^ (n + 1)
  · rw [if_pos hc]
    have hm : 10 - 1 / 2 * (10:ℚ) ^ (-(n : ℤ)) ≤ q / 10 ^ Int.log 10 q :=
      cross_of_rint hc
    have h1 : np_round q ((n : ℤ) - 1 - Int.log 10 q) = 10 ^ (Int.log 10 q + 1) :=
      cross_round q n hm
    have hm' : 10 - 1 / 2 * (10:ℚ) ^ (-((n - 1 : ℕ) : ℤ)) ≤ q / 10 ^ Int.log 10 q :=
      cross_mono (Nat.sub_le n 1) hm
    have h2 : np_round q (((n - 1 : ℕ) : ℤ) - 1 - Int.log 10 q)
        = 10 ^ (Int.log 10 q + 1) := cross_round q (n - 1) hm'
    have hexp : -(Int.log 10 q + 1 - (n : ℤ) + 1) = ((n - 1 : ℕ) : ℤ) - 1 - Int.log 10 q := by
      have hc1 : ((n - 1 : ℕ) : ℤ) = (n : ℤ) - 1 := by omega
      rw [hc1]
      ring
    rw [hexp, h2, h1]
  · rw [if_neg hc]
    congr 1
    ring

lemma round_sig_fig_eq_np_round_log {q : ℚ} (hq : q ≠ 0) {n : ℕ} (hn : 1 ≤ n) :
    round_sig_fig q n = np_round q ((n : ℤ) - 1 - Int.log 10 |q|) := by
  rcases hq.lt_or_lt with hneg | hpos
  · have hpos2 : 0 < -q := by linarith
    have habs : |q| = -q := abs_of_neg hneg
    have hstep : round_sig_fig q n = -round_sig_fig (-q) n := by
      unfold round_sig_fig
      rw [sciExpo_neg, np_round_of_pos_eq_neg q]
    rw [hstep, round_sig_fig_pos_eq hpos2 hn, habs, ← np_round_neg, neg_neg]
  · rw [abs_of_pos hpos]
    exact round_sig_fig_pos_eq hpos hn

lemma np_round_at_neg_log (u : ℚ) :
    np_round u (-(Int.log 10 u)) = (rint (u / 10 ^ Int.log 10 u) : ℚ) * 10 ^ Int.log 10 u := by
  unfold np_round
  rw [zpow_neg, ← div_eq_mul_inv, div_eq_mul_inv _ ((10:ℚ) ^ Int.log 10 u)⁻¹, inv_inv]

lemma rint_mantissa_lb {u : ℚ} (hu : 0 < u) :
    1 ≤ rint (u / 10 ^ Int.log 10 u) := by
  have h1 := le_rint (u / 10 ^ Int.log 10 u)
  have h2 := mantissa_lb hu
  have h3 : (0:ℚ) < (rint (u / 10 ^ Int.log 10 u) : ℚ) := by linarith
  exact_mod_cast h3

lemma rint_mantissa_ub {u : ℚ} :
    rint (u / 10 ^ Int.log 10 u) ≤ 10 := by
  have h1 := rint_le (u / 10 ^ Int.log 10 u)
  have h2 := mantissa_ub u
  have h3 : (rint (u / 10 ^ Int.log 10 u) : ℚ) < (11 : ℤ) := by
    push_cast
    linarith
  have h4 : rint (u / 10 ^ Int.log 10 u) < 11 := by exact_mod_cast h3
  omega

lemma ten_pow_succ_q (e : ℤ) : (10:ℚ) ^ (e + 1) = 10 * 10 ^ e := by
  rw [zpow_add₀ (by norm_num : (10:ℚ) ≠ 0), zpow_one]
  ring

lemma np_round_at_neg_log_self {u : ℚ} (hu : 0 < u) :
    np_round u (-(Int.log 10 (np_round u (-(Int.log 10 u)))))
      = np_round u (-(Int.log 10 u)) := by
  set e := Int.log 10 u with he
  set R := rint (u / 10 ^ e) with hR
  have hu1 : np_round u (-e) = (R : ℚ) * 10 ^ e := np_round_at_neg_log u
  have hRlb : 1 ≤ R := rint_mantissa_lb hu
  have hRub : R ≤ 10 := rint_mantissa_ub
  have hpe : (0:ℚ) < 10 ^ e := ten_zpow_pos e
  rcases (by omega : R ≤ 9 ∨ R = 10) with h9 | h10
  · have hlog : Int.log 10 (np_round u (-e)) = e := by
      rw [hu1]
      apply Int_log_eq_of
      · have : (1:ℚ) ≤ (R : ℚ) := by exact_mod_cast hRlb
        nlinarith
      · have : (1:ℚ) ≤ (R : ℚ) := by exact_mod_cast hRlb
        nlinarith
      · have h9q : (R : ℚ) ≤ 9 := by exact_mod_cast h9
        rw [ten_pow_succ_q]
        nlinarith
    rw [hlog]
  · -- the rounded uncertainty crossed up to the next power of ten
    have hm95 : 10 - 1 / 2 * (10:ℚ) ^ (-((0:ℕ) : ℤ)) ≤ u / 10 ^ e := by
      have h1 := rint_le (u / 10 ^ e)
      rw [← hR, h10] at h1
      push_cast at h1 ⊢
      norm_num at h1 ⊢
      linarith
    have hcross := cross_round u 0 hm95
    have hu1v : np_round u (-e) = 10 ^ (e + 1) := by
      rw [hu1, h10, ten_pow_succ_q]
      push_cast
      ring
    have hlog : Int.log 10 (np_round u (-e)) = e + 1 := by
      rw [hu1v]
      apply Int_log_eq_of (ten_zpow_pos _) le_rfl (by
        have := ten_zpow_pos (e + 1)
        rw [ten_pow_succ_q (e+1)]
        nlinarith)
    rw [hlog]
    have hplace : -(e + 1) = ((0:ℕ) : ℤ) - 1 - e := by
      push_cast
      ring
    rw [hplace, hcross, hu1v]

lemma leadDigit_one_log_round {u : ℚ} (hd : leadDigit u = 1) :
    Int.log 10 (np_round u (1 - Int.log 10 u)) = Int.log 10 u := by
  set e := Int.log 10 u with he
  have hpe : (0:ℚ) < 10 ^ e := ten_zpow_pos e
  have hm : 1 ≤ u / 10 ^ e ∧ u / 10 ^ e < 2 := by
    have hfl : ⌊u / 10 ^ e⌋ = 1 := hd
    constructor
    · exact_mod_cast (Int.floor_eq_iff.mp hfl).1
    · have h2 := (Int.floor_eq_iff.mp hfl).2
      push_cast at h2
      linarith
  have hx : u * 10 ^ ((1:ℤ) - e) = 10 * (u / 10 ^ e) := by
    have hz : (10:ℚ) ^ ((1:ℤ) - e) = 10 / 10 ^ e := by
      rw [zpow_sub₀ (by norm_num : (10:ℚ) ≠ 0), zpow_one]
    rw [hz]
    ring
  set S := rint (u * 10 ^ ((1:ℤ) - e)) with hS
  have hSx : S = rint (10 * (u / 10 ^ e)) := by
    rw [hS, hx]
  have hSlb : (10:ℚ) ≤ (S : ℚ) := by
    have h3 : (19/2 : ℚ) ≤ (S : ℚ) := by
      rw [hSx]
      have h1 := le_rint (10 * (u / 10 ^ e))
      linarith [hm.1]
    have h4 : (9:ℤ) < S := by
      exact_mod_cast (by linarith : (9:ℚ) < (S:ℚ))
    exact_mod_cast (by omega : (10:ℤ) ≤ S)
  have hSub : (S : ℚ) ≤ 20 := by
    have h3 : (S:ℚ) < 41/2 := by
      rw [hSx]
      have h1 := rint_le (10 * (u / 10 ^ e))
      linarith [hm.2]
    have h4 : S < 21 := by
      exact_mod_cast (by linarith : (S:ℚ) < (21:ℚ))
    exact_mod_cast (by omega : (S:ℤ) ≤ 20)
  have hu1 : np_round u ((1:ℤ) - e) = (S : ℚ) * (10 ^ e / 10) := by
    unfold np_round
    rw [← hS]
    have hz : (10:ℚ) ^ ((1:ℤ) - e) = 10 / 10 ^ e := by
      rw [zpow_sub₀ (by norm_num : (10:ℚ) ≠ 0), zpow_one]
    rw [hz]
    field_simp
  rw [hu1]
  apply Int_log_eq_of
  · nlinarith
  · nlinarith
  · rw [ten_pow_succ_q]
    nlinarith

lemma round_sig_fig_uncertainty_list_ok {vs us : List ℚ} (hlen : vs.length ≤ us.length)
    (hnn : ∀ u ∈ us.take vs.length, 0 ≤ u) :
    round_sig_fig_uncertainty_list vs us
      = .ok (List.zipWith (fun v u => (elemRoundUnc v u).1) vs us,
             List.zipWith (fun v u => (elemRoundUnc v u).2) vs us) := by
  induction vs generalizing us with
  | nil => rfl
  | cons v vs ih =>
    cases us with
    | nil => simp at hlen
    | cons u us =>
      have hu : 0 ≤ u := hnn u (by simp)
      have hrest := ih (by simpa using hlen) (fun w hw => hnn w (by
        simp only [List.length_cons, List.take_succ_cons, List.mem_cons]
        exact Or.inr hw))
      simp only [round_sig_fig_uncertainty_list, round_sig_fig_uncertainty,
        if_neg (not_lt.mpr hu), hrest, List.zipWith_cons_cons]
      rfl

lemma arrFlatten_round_sig_fig_arr (r : ℕ) (a : Arr r) (n : ℕ) :
    arrFlatten r (round_sig_fig_arr r a n)
      = (arrFlatten r a).map (fun q => round_sig_fig q n) := by
  induction r with
  | zero => rfl
  | succ r ih =>
    show (List.map (arrFlatten r) (List.map (fun b => round_sig_fig_arr r b n) a)).flatten
        = ((List.map (arrFlatten r) a).flatten).map (fun q => round_sig_fig q n)
    rw [List.map_map, List.map_flatten, List.map_map]
    congr 1
    apply List.map_congr_left
    intro b _
    exact ih b

lemma fitting_chi_formula {N k : ℕ} {ls : Solver N k} {p : Fin k → ℝ}
    {x y : Fin N → ℝ} {func : (Fin k → ℝ) → ℝ → ℝ} {s : ℝ}
    {pf : Fin k → ℝ} {chi : ℝ} {unc : Fin k → ℝ}
    (hok : fitting ls p x y func s = .ok (pf, chi, unc)) :
    pf = (ls (fun q => residuals q func x y s) p).x ∧
    chi = (∑ i, residuals pf func x y
        (Real.sqrt ((∑ i, residuals pf func x y 1 i ^ 2) / ((N : ℝ) - (k : ℝ)))) i ^ 2)
        / ((N : ℝ) - (k : ℝ)) := by
  simp only [fitting] at hok
  split at hok
  · exact absurd hok (by simp)
  · simp only [Except.ok.injEq, Prod.mk.injEq] at hok
    obtain ⟨h1, h2, h3⟩ := hok
    subst h1
    exact ⟨rfl, h2.symm⟩

lemma fitting_chi_one {N k : ℕ} {ls : Solver N k} {p : Fin k → ℝ}
    {x y : Fin N → ℝ} {func : (Fin k → ℝ) → ℝ → ℝ} {s : ℝ}
    {pf : Fin k → ℝ} {chi : ℝ} {unc : Fin k → ℝ}
    (hok : fitting ls p x y func s = .ok (pf, chi, unc)) (hNk : k < N)
    (hSS : (∑ i, residuals pf func x y 1 i ^ 2) ≠ 0) : chi = 1 := by
  obtain ⟨_, hchi⟩ := fitting_chi_formula hok
  set SS := ∑ i, residuals pf func x y 1 i ^ 2 with hSSdef
  have hSSnn : 0 ≤ SS := Finset.sum_nonneg fun i _ => sq_nonneg _
  have hNk2 : (0:ℝ) < (N : ℝ) - (k : ℝ) := by
    have hc : (k : ℝ) < (N : ℝ) := by exact_mod_cast hNk
    linarith
  have hq : 0 ≤ SS / ((N : ℝ) - (k : ℝ)) := div_nonneg hSSnn (le_of_lt hNk2)
  set beta := Real.sqrt (SS / ((N : ℝ) - (k : ℝ))) with hbeta
  have hb2 : beta ^ 2 = SS / ((N : ℝ) - (k : ℝ)) := Real.sq_sqrt hq
  have hsum : (∑ i, residuals pf func x y beta i ^ 2) = SS / beta ^ 2 := by
    rw [hSSdef, Finset.sum_div]
    apply Finset.sum_congr rfl
    intro i _
    unfold residuals
    rw [div_pow, div_pow]
    norm_num
  rw [hchi, hsum, hb2]
  field_simp

lemma fitting_square_returns {k : ℕ} (ls : Solver k k) (p : Fin k → ℝ)
    (x y : Fin k → ℝ) (func : (Fin k → ℝ) → ℝ → ℝ) (s : ℝ)
    (hdet : ((ls (fun q => residuals q func x y s) p).jac.transpose
        * (ls (fun q => residuals q func x y s) p).jac).det ≠ 0) :
    fitting ls p x y func s
      = .ok ((ls (fun q => residuals q func x y s) p).x, 0, fun _ => 0) := by
  simp only [fitting]
  rw [if_neg hdet]
  have hz : (k : ℝ) - (k : ℝ) = 0 := sub_self _
  simp only [hz, div_zero, Real.sqrt_zero, mul_zero]

lemma detA_ne (f : (Fin 1 → ℝ) → Fin 1 → ℝ) (p : Fin 1 → ℝ) :
    ((lsA f p).jac.transpose * (lsA f p).jac).det ≠ 0 := by
  have h : ((lsA f p).jac.transpose * (lsA f p).jac).det = 1 := by
    show ((Matrix.of fun _ _ => (1:ℝ) : Matrix (Fin 1) (Fin 1) ℝ).transpose
        * (Matrix.of fun _ _ => 1 : Matrix (Fin 1) (Fin 1) ℝ)).det = 1
    rw [Matrix.det_fin_one, Matrix.mul_apply]
    simp
  rw [h]
  norm_num

lemma matB_hessian :
    (Matrix.of (fun _ _ => (1:ℝ)) : Matrix (Fin 2) (Fin 1) ℝ).transpose
      * (Matrix.of fun _ _ => 1 : Matrix (Fin 2) (Fin 1) ℝ)
      = (Matrix.of fun _ _ => 2 : Matrix (Fin 1) (Fin 1) ℝ) := by
  funext i j
  rw [Matrix.mul_apply]
  simp [Fin.sum_univ_two]

lemma matB_inv :
    (Matrix.of (fun _ _ => (2:ℝ)) : Matrix (Fin 1) (Fin 1) ℝ)⁻¹
      = (Matrix.of fun _ _ => 2⁻¹ : Matrix (Fin 1) (Fin 1) ℝ) := by
  rw [Matrix.inv_def, Matrix.det_fin_one, Matrix.adjugate_fin_one, Ring.inverse_eq_inv]
  funext a b
  have ha : a = 0 := Fin.eq_zero a
  have hb : b = 0 := Fin.eq_zero b
  subst ha
  subst hb
  simp [Matrix.smul_apply, Matrix.one_apply]

lemma fittingB_eval (s : ℝ) :
    fitting lsB (fun _ => 0) (fun _ => 0) yB funcA s
      = .ok (fun _ => 1, 1, fun _ => 1) := by
  have hdet : ((lsB (fun q => residuals q funcA (fun _ => 0) yB s) (fun _ => 0)).jac.transpose
      * (lsB (fun q => residuals q funcA (fun _ => 0) yB s) (fun _ => 0)).jac).det ≠ 0 := by
    show ((Matrix.of (fun _ _ => (1:ℝ)) : Matrix (Fin 2) (Fin 1) ℝ).transpose
        * (Matrix.of fun _ _ => 1 : Matrix (Fin 2) (Fin 1) ℝ)).det ≠ 0
    rw [matB_hessian, Matrix.det_fin_one]
    simp
  have hSS : (∑ i, residuals
      ((lsB (fun q => residuals q funcA (fun _ => 0) yB s) (fun _ => 0)).x)
      funcA (fun _ => 0) yB 1 i ^ 2) = 2 := by
    show (∑ i : Fin 2, residuals (fun _ => 1) funcA (fun _ => 0) yB 1 i ^ 2) = 2
    rw [Fin.sum_univ_two]
    unfold residuals funcA yB
    norm_num
  have hcast : ((2:ℕ) : ℝ) - ((1:ℕ) : ℝ) = 1 := by norm_num
  simp only [fitting]
  rw [if_neg hdet]
  refine congrArg Except.ok ?_
  have hx : (lsB (fun q => residuals q funcA (fun _ => 0) yB s) (fun _ => 0)).x
      = fun _ => (1:ℝ) := rfl
  refine Prod.ext hx (Prod.ext ?_ ?_)
  · -- the reduced chi-squared component
    show (∑ i, residuals
        ((lsB (fun q => residuals q funcA (fun _ => 0) yB s) (fun _ => 0)).x)
        funcA (fun _ => 0) yB
        (Real.sqrt ((∑ i, residuals
          ((lsB (fun q => residuals q funcA (fun _ => 0) yB s) (fun _ => 0)).x)
          funcA (fun _ => 0) yB 1 i ^ 2) / (((2:ℕ):ℝ) - ((1:ℕ):ℝ)))) i ^ 2)
        / (((2:ℕ):ℝ) - ((1:ℕ):ℝ)) = 1
    rw [hSS, hcast]
    have hb : Real.sqrt (2 / 1) = Real.sqrt 2 := by norm_num
    rw [hb]
    show ((∑ i : Fin 2, residuals (fun _ => 1) funcA (fun _ => 0) yB (Real.sqrt 2) i ^ 2) / 1) = 1
    rw [Fin.sum_univ_two]
    unfold residuals funcA yB
    rw [div_one]
    have h2 : ((![0, 2] : Fin 2 → ℝ) 0 - 1) = -1 := by norm_num
    have h3 : ((![0, 2] : Fin 2 → ℝ) 1 - 1) = 1 := by norm_num
    rw [h2, h3, div_pow, div_pow, Real.sq_sqrt (by norm_num : (0:ℝ) ≤ 2)]
    norm_num
  · -- the rescaled uncertainty component
    show (fun i => Real.sqrt
        ((((lsB (fun q => residuals q funcA (fun _ => 0) yB s) (fun _ => 0)).jac.transpose
          * (lsB (fun q => residuals q funcA (fun _ => 0) yB s) (fun _ => 0)).jac)⁻¹) i i)
        * Real.sqrt ((∑ i, residuals
          ((lsB (fun q => residuals q funcA (fun _ => 0) yB s) (fun _ => 0)).x)
          funcA (fun _ => 0) yB 1 i ^ 2) / (((2:ℕ):ℝ) - ((1:ℕ):ℝ))))
        = fun _ => (1:ℝ)
    funext i
    rw [hSS, hcast]
    have hKi : (((lsB (fun q => residuals q funcA (fun _ => 0) yB s) (fun _ => 0)).jac.transpose
        * (lsB (fun q => residuals q funcA (fun _ => 0) yB s) (fun _ => 0)).jac)⁻¹) i i
        = 2⁻¹ := by
      show (((Matrix.of (fun _ _ => (1:ℝ)) : Matrix (Fin 2) (Fin 1) ℝ).transpose
          * (Matrix.of fun _ _ => 1 : Matrix (Fin 2) (Fin 1) ℝ))⁻¹) i i = 2⁻¹
      rw [matB_hessian, matB_inv]
      rfl
    rw [hKi]
    have hb : Real.sqrt (2 / 1) = Real.sqrt 2 := by norm_num
    rw [hb, Real.sqrt_inv]
    exact inv_mul_cancel₀ (by positivity)

lemma elemRoundUnc_eq_of_ne_one {v u : ℚ} (hu : u ≠ 0) (hd : leadDigit u ≠ 1) :
    elemRoundUnc v u = (np_round v (-(Int.log 10 (np_round u (-(Int.log 10 u))))),
      np_round u (-(Int.log 10 u))) := by
  unfold elemRoundUnc
  rw [if_neg hu, if_pos hd]

lemma elemRoundUnc_eq_of_one {v u : ℚ} (hu : u ≠ 0) (hd : leadDigit u = 1) :
    elemRoundUnc v u = (np_round v (1 - Int.log 10 (np_round u (1 - Int.log 10 u))),
      np_round u (1 - Int.log 10 u)) := by
  unfold elemRoundUnc
  rw [if_neg hu, if_neg (by simp [hd])]

lemma log_7_100 : Int.log 10 ((7:ℚ)/100) = -2 :=
  Int_log_eq_of (by norm_num) (by norm_num) (by norm_num)

lemma log_12_1000 : Int.log 10 ((12:ℚ)/1000) = -2 :=
  Int_log_eq_of (by norm_num) (by norm_num) (by norm_num)

lemma log_4321 : Int.log 10 ((4321:ℚ)/10000000) = -4 :=
  Int_log_eq_of (by norm_num) (by norm_num) (by norm_num)

lemma lead_7_100 : leadDigit ((7:ℚ)/100) = 7 := by
  unfold leadDigit
  rw [log_7_100]
  norm_num

lemma lead_12_1000 : leadDigit ((12:ℚ)/1000) = 1 := by
  unfold leadDigit
  rw [log_12_1000]
  norm_num

lemma rsfu_example_1 : round_sig_fig_uncertainty ((123456:ℚ)/10000) ((7:ℚ)/100)
    = .ok ((1235:ℚ)/100, (7:ℚ)/100) := by
  unfold round_sig_fig_uncertainty
  rw [if_neg (by norm_num), elemRoundUnc_eq_of_ne_one (by norm_num)
    (by rw [lead_7_100]; norm_num), log_7_100]
  have h1 : np_round ((7:ℚ)/100) (-(-2 : ℤ)) = 7/100 := by
    norm_num [np_round, rint, Int.fract]
  rw [h1, log_7_100]
  have h2 : np_round ((123456:ℚ)/10000) (-(-2 : ℤ)) = 1235/100 := by
    norm_num [np_round, rint, Int.fract]
  rw [h2]

lemma rsfu_example_2 : round_sig_fig_uncertainty ((123456:ℚ)/10000) ((12:ℚ)/1000)
    = .ok ((12346:ℚ)/1000, (12:ℚ)/1000) := by
  unfold round_sig_fig_uncertainty
  rw [if_neg (by norm_num), elemRoundUnc_eq_of_one (by norm_num) lead_12_1000,
    log_12_1000]
  have h1 : np_round ((12:ℚ)/1000) (1 - (-2 : ℤ)) = 12/1000 := by
    norm_num [np_round, rint, Int.fract]
  rw [h1, log_12_1000]
  have h2 : np_round ((123456:ℚ)/10000) (1 - (-2 : ℤ)) = 12346/1000 := by
    norm_num [np_round, rint, Int.fract]
  rw [h2]

lemma rsf_example : round_sig_fig ((4321:ℚ)/10000000) 2 = (43:ℚ)/100000 := by
  unfold round_sig_fig sciExpo
  rw [if_neg (by norm_num)]
  have habs : |(4321:ℚ)/10000000| = (4321:ℚ)/10000000 := abs_of_pos (by norm_num)
  rw [habs, log_4321]
  have hc : rint ((4321:ℚ)/10000000 / 10 ^ (-4 : ℤ) * 10 ^ ((2:ℕ) : ℤ)) = 432 := by
    norm_num [rint, Int.fract]
  rw [if_neg (by rw [hc]; norm_num)]
  norm_num [np_round, rint, Int.fract]

lemma SSB_eq : (∑ i : Fin 2, residuals (fun _ => (1:ℝ)) funcA (fun _ => 0) yB 1 i ^ 2) = 2 := by
  rw [Fin.sum_univ_two]
  unfold residuals funcA yB
  norm_num

lemma rsfu_list_index_error {vs us : List ℚ} (hlen : us.length < vs.length)
    (hnn : ∀ u ∈ us, 0 ≤ u) :
    round_sig_fig_uncertainty_list vs us = .error .indexError := by
  induction vs generalizing us with
  | nil => simp at hlen
  | cons v vs ih =>
    cases us with
    | nil => rfl
    | cons u us =>
      have hu : 0 ≤ u := hnn u (by simp)
      have hrest := ih (by simpa using hlen) (fun w hw => hnn w (by simp [hw]))
      simp only [round_sig_fig_uncertainty_list, round_sig_fig_uncertainty,
        if_neg (not_lt.mpr hu), hrest]
      rfl

lemma if_zero_fst_eq :
    (fun v u : ℚ => if u = 0 then v else (elemRoundUnc v u).1)
      = fun v u : ℚ => (elemRoundUnc v u).1 := by
  funext v u
  split_ifs with h
  · subst h
    unfold elemRoundUnc
    rw [if_pos rfl]
  · rfl

lemma if_zero_snd_eq :
    (fun v u : ℚ => if u = 0 then u else (elemRoundUnc v u).2)
      = fun v u : ℚ => (elemRoundUnc v u).2 := by
  funext v u
  split_ifs with h
  · subst h
    unfold elemRoundUnc
    rw [if_pos rfl]
  · rfl

/-- C1 counterexample: with N = k = 1 (one data point, one fitted parameter,
degrees of freedom zero) fitting does NOT fail — there is no
DegreesOfFreedomError anywhere in the code — it returns a normal result
triple, having performed the rescaling division with divisor N - k = 0.
(In IEEE arithmetic that division yields inf/nan; in this exact model the
division-by-zero junk value is 0.) -/
theorem fit_dof_no_error_counterexample :
    fitting lsA (fun _ => 0) (fun _ => 0) (fun _ => 2) funcA 1
      = .ok (fun _ => 1, 0, fun _ => 0) :=
  fitting_square_returns lsA (fun _ => 0) (fun _ => 0) (fun _ => 2) funcA 1
    (detA_ne _ _)

/-- C1 (amended): fitting performs no degrees-of-freedom check.  When the
number of data points equals the number of parameters (N = k, degrees of
freedom 0) and the Hessian is invertible, fitting raises nothing and
returns a result triple, dividing by zero degrees of freedom in the
rescaling step; no DegreesOfFreedomError exists in the code. -/
theorem fit_dof_zero_division_amended {k : ℕ} (ls : Solver k k) (p : Fin k → ℝ)
    (x y : Fin k → ℝ) (func : (Fin k → ℝ) → ℝ → ℝ) (s : ℝ)
    (hdet : ((ls (fun q => residuals q func x y s) p).jac.transpose
        * (ls (fun q => residuals q func x y s) p).jac).det ≠ 0) :
    fitting ls p x y func s
      = .ok ((ls (fun q => residuals q func x y s) p).x, 0, fun _ => 0) :=
  fitting_square_returns ls p x y func s hdet

/-- C1 witness: the amended theorem applied at the concrete N = k = 1
scenario. -/
theorem fit_dof_zero_division_amended_witness :
    (((lsA (fun q => residuals q funcA (fun _ => 0) (fun _ => 2) 1) (fun _ => 0)).jac.transpose
        * (lsA (fun q => residuals q funcA (fun _ => 0) (fun _ => 2) 1) (fun _ => 0)).jac).det ≠ 0)
    ∧ fitting lsA (fun _ => 0) (fun _ => 0) (fun _ => 2) funcA 1
      = .ok ((lsA (fun q => residuals q funcA (fun _ => 0) (fun _ => 2) 1) (fun _ => 0)).x,
             0, fun _ => 0) :=
  ⟨detA_ne _ _, fit_dof_zero_division_amended lsA (fun _ => 0) (fun _ => 0)
    (fun _ => 2) funcA 1 (detA_ne _ _)⟩

/-- C2: for a fit with uncalibrated input sigma s = 1, whenever fitting
returns (N > k and the unweighted residual sum of squares at the returned
solution is nonzero), the reported reduced chi-squared equals 1 exactly. -/
theorem fit_reduced_chi2_eq_one_s1 {N k : ℕ} (ls : Solver N k) (p : Fin k → ℝ)
    (x y : Fin N → ℝ) (func : (Fin k → ℝ) → ℝ → ℝ)
    (pf : Fin k → ℝ) (chi : ℝ) (unc : Fin k → ℝ)
    (hok : fitting ls p x y func 1 = .ok (pf, chi, unc)) (hNk : k < N)
    (hSS : (∑ i, residuals pf func x y 1 i ^ 2) ≠ 0) : chi = 1 :=
  fitting_chi_one hok hNk hSS

/-- C2 witness: the concrete N = 2, k = 1 scenario with s = 1, where the
residual sum of squares is 2 and the returned chi-squared is 1. -/
theorem fit_reduced_chi2_eq_one_s1_witness :
    (fitting lsB (fun _ => 0) (fun _ => 0) yB funcA 1 = .ok (fun _ => 1, 1, fun _ => 1))
    ∧ 1 < 2
    ∧ ((∑ i : Fin 2, residuals (fun _ => (1:ℝ)) funcA (fun _ => 0) yB 1 i ^ 2) ≠ 0)
    ∧ (1:ℝ) = 1 :=
  ⟨fittingB_eval 1, by norm_num, by rw [SSB_eq]; norm_num,
    fit_reduced_chi2_eq_one_s1 lsB (fun _ => 0) (fun _ => 0) yB funcA
      (fun _ => 1) 1 (fun _ => 1) (fittingB_eval 1) (by norm_num)
      (by rw [SSB_eq]; norm_num)⟩

/-- C7: the identity of C2 holds for EVERY input sigma s, not only s = 1:
beta is always computed from the s = 1 residuals, so whenever fitting
returns with N > k and nonzero unweighted residual sum of squares, the
reported reduced chi-squared is 1 regardless of s — it carries no
information about goodness of fit relative to the supplied uncertainties. -/
theorem fit_reduced_chi2_eq_one_any_s {N k : ℕ} (ls : Solver N k) (p : Fin k → ℝ)
    (x y : Fin N → ℝ) (func : (Fin k → ℝ) → ℝ → ℝ) (s : ℝ)
    (pf : Fin k → ℝ) (chi : ℝ) (unc : Fin k → ℝ)
    (hok : fitting ls p x y func s = .ok (pf, chi, unc)) (hNk : k < N)
    (hSS : (∑ i, residuals pf func x y 1 i ^ 2) ≠ 0) : chi = 1 :=
  fitting_chi_one hok hNk hSS

/-- C7 witness: the same concrete scenario with s = 3 ≠ 1 still reports
chi-squared 1. -/
theorem fit_reduced_chi2_eq_one_any_s_witness :
    (fitting lsB (fun _ => 0) (fun _ => 0) yB funcA 3 = .ok (fun _ => 1, 1, fun _ => 1))
    ∧ 1 < 2
    ∧ ((∑ i : Fin 2, residuals (fun _ => (1:ℝ)) funcA (fun _ => 0) yB 1 i ^ 2) ≠ 0)
    ∧ (1:ℝ) = 1 :=
  ⟨fittingB_eval 3, by norm_num, by rw [SSB_eq]; norm_num,
    fit_reduced_chi2_eq_one_any_s lsB (fun _ => 0) (fun _ => 0) yB funcA 3
      (fun _ => 1) 1 (fun _ => 1) (fittingB_eval 3) (by norm_num)
      (by rw [SSB_eq]; norm_num)⟩

/-- C8: the sum of squares of residuals(p, func, x, y, s) equals
chi2(func(p, x), y, s): the sign flip between (y - f) and (f - y)
disappears under squaring. -/
theorem residuals_sum_sq_eq_chi2 {N k : ℕ} (p : Fin k → ℝ)
    (func : (Fin k → ℝ) → ℝ → ℝ) (x y : Fin N → ℝ) (s : ℝ) :
    (∑ i, residuals p func x y s i ^ 2) = chi2 (fun i => func p (x i)) y s := by
  unfold residuals chi2 residuals_data
  apply Finset.sum_congr rfl
  intro i _
  ring

/-- C9 (code bug): find_nearest_index is a bare left searchsorted; on the
sorted array [0, 10] with search value 4 it returns the insertion index 1,
although the element at index 0 is strictly closer to 4 — contradicting
its own docstring ("the index of the closest value in the array"). -/
theorem find_nearest_index_returns_insertion_point :
    find_nearest_index 4 [0, 10] = 1 ∧ |(4:ℚ) - 0| < |(4:ℚ) - 10| := by
  constructor
  · rfl
  · norm_num

/-- C10: fitting_params_only returns exactly the parameter vector that
fitting returns as the first component of its triple (both run the same
deterministic solver call), skipping the uncertainty estimation. -/
theorem fit_params_only_matches_fitting {N k : ℕ} (ls : Solver N k)
    (p : Fin k → ℝ) (x y : Fin N → ℝ) (func : (Fin k → ℝ) → ℝ → ℝ) (s : ℝ)
    (pf : Fin k → ℝ) (chi : ℝ) (unc : Fin k → ℝ)
    (hok : fitting ls p x y func s = .ok (pf, chi, unc)) :
    fitting_params_only ls p x y func s = pf :=
  ((fitting_chi_formula hok).1).symm

/-- C10 witness: in the concrete N = 2, k = 1 scenario both entry points
produce the parameter vector (1). -/
theorem fit_params_only_matches_fitting_witness :
    (fitting lsB (fun _ => 0) (fun _ => 0) yB funcA 1 = .ok (fun _ => 1, 1, fun _ => 1))
    ∧ fitting_params_only lsB (fun _ => 0) (fun _ => 0) yB funcA 1 = fun _ => 1 :=
  ⟨fittingB_eval 1, fit_params_only_matches_fitting lsB (fun _ => 0) (fun _ => 0)
    yB funcA 1 (fun _ => 1) 1 (fun _ => 1) (fittingB_eval 1)⟩

/-- C3: for a scalar pair with positive uncertainty, the uncertainty is
rounded to one significant figure (two when its leading digit is 1), and
the value is rounded to the same decimal place d as the rounded
uncertainty; the two spec examples evaluate as stated, and on parallel
equal-length arrays the same per-element rule is applied elementwise. -/
theorem roundToUncertainty_leading_sig_fig :
    (∀ v u : ℚ, 0 < u →
      round_sig_fig_uncertainty v u = .ok (elemRoundUnc v u)
      ∧ (leadDigit u ≠ 1 →
          (elemRoundUnc v u).2 = round_sig_fig u 1
          ∧ ∃ d : ℤ, (elemRoundUnc v u).2 = np_round u d
              ∧ (elemRoundUnc v u).1 = np_round v d)
      ∧ (leadDigit u = 1 →
          (elemRoundUnc v u).2 = round_sig_fig u 2
          ∧ ∃ d : ℤ, (elemRoundUnc v u).2 = np_round u d
              ∧ (elemRoundUnc v u).1 = np_round v d))
    ∧ round_sig_fig_uncertainty ((123456:ℚ)/10000) ((7:ℚ)/100)
        = .ok ((1235:ℚ)/100, (7:ℚ)/100)
    ∧ round_sig_fig_uncertainty ((123456:ℚ)/10000) ((12:ℚ)/1000)
        = .ok ((12346:ℚ)/1000, (12:ℚ)/1000)
    ∧ (∀ vs us : List ℚ, vs.length = us.length → (∀ u ∈ us, 0 ≤ u) →
        round_sig_fig_uncertainty_list vs us
          = .ok (List.zipWith (fun v u => (elemRoundUnc v u).1) vs us,
                 List.zipWith (fun v u => (elemRoundUnc v u).2) vs us)) := by
  refine ⟨?_, rsfu_example_1, rsfu_example_2, ?_⟩
  · intro v u hu
    have hne : u ≠ 0 := ne_of_gt hu
    refine ⟨by unfold round_sig_fig_uncertainty; rw [if_neg (not_lt.mpr (le_of_lt hu))],
      ?_, ?_⟩
    · intro hd
      rw [elemRoundUnc_eq_of_ne_one hne hd]
      constructor
      · have h1 : round_sig_fig u 1 = np_round u (((1:ℕ):ℤ) - 1 - Int.log 10 u) := by
          rw [round_sig_fig_eq_np_round_log hne le_rfl, abs_of_pos hu]
        rw [h1]
        show np_round u (-(Int.log 10 u)) = np_round u (((1:ℕ):ℤ) - 1 - Int.log 10 u)
        congr 1
        push_cast
        ring
      · refine ⟨-(Int.log 10 (np_round u (-(Int.log 10 u)))), ?_, rfl⟩
        exact (np_round_at_neg_log_self hu).symm
    · intro hd
      rw [elemRoundUnc_eq_of_one hne hd]
      constructor
      · have h1 : round_sig_fig u 2 = np_round u (((2:ℕ):ℤ) - 1 - Int.log 10 u) := by
          rw [round_sig_fig_eq_np_round_log hne (by norm_num), abs_of_pos hu]
        rw [h1]
        show np_round u (1 - Int.log 10 u) = np_round u (((2:ℕ):ℤ) - 1 - Int.log 10 u)
        congr 1
      · refine ⟨1 - Int.log 10 (np_round u (1 - Int.log 10 u)), ?_, rfl⟩
        rw [leadDigit_one_log_round hd]
  · intro vs us hlen hnn
    exact round_sig_fig_uncertainty_list_ok (le_of_eq hlen)
      (fun w hw => hnn w (List.mem_of_mem_take hw))

/-- C3 witness: the first conjunct applied at the concrete pair
(12.3456, 0.07), whose uncertainty is positive. -/
theorem roundToUncertainty_leading_sig_fig_witness :
    (0 < (7:ℚ)/100)
    ∧ (round_sig_fig_uncertainty ((123456:ℚ)/10000) ((7:ℚ)/100)
        = .ok (elemRoundUnc ((123456:ℚ)/10000) ((7:ℚ)/100))
      ∧ (leadDigit ((7:ℚ)/100) ≠ 1 →
          (elemRoundUnc ((123456:ℚ)/10000) ((7:ℚ)/100)).2 = round_sig_fig ((7:ℚ)/100) 1
          ∧ ∃ d : ℤ, (elemRoundUnc ((123456:ℚ)/10000) ((7:ℚ)/100)).2 = np_round ((7:ℚ)/100) d
              ∧ (elemRoundUnc ((123456:ℚ)/10000) ((7:ℚ)/100)).1 = np_round ((123456:ℚ)/10000) d)
      ∧ (leadDigit ((7:ℚ)/100) = 1 →
          (elemRoundUnc ((123456:ℚ)/10000) ((7:ℚ)/100)).2 = round_sig_fig ((7:ℚ)/100) 2
          ∧ ∃ d : ℤ, (elemRoundUnc ((123456:ℚ)/10000) ((7:ℚ)/100)).2 = np_round ((7:ℚ)/100) d
              ∧ (elemRoundUnc ((123456:ℚ)/10000) ((7:ℚ)/100)).1 = np_round ((123456:ℚ)/10000) d)) :=
  ⟨by norm_num, (roundToUncertainty_leading_sig_fig).1 ((123456:ℚ)/10000) ((7:ℚ)/100)
    (by norm_num)⟩

/-- C4 counterexample: on arrays of unequal lengths — value [1] shorter
than uncertainty [0, 0] — round_sig_fig_uncertainty does NOT fail at all
(no LengthMismatchError exists in the code): it returns successfully,
silently ignoring the extra uncertainty entry. -/
theorem roundToUncertainty_length_mismatch_counterexample :
    round_sig_fig_uncertainty_list [1] [0, 0] = .ok ([1], [0]) := by
  have h : round_sig_fig_uncertainty_list [1] [0, 0]
      = .ok (List.zipWith (fun v u => (elemRoundUnc v u).1) [1] [0, 0],
             List.zipWith (fun v u => (elemRoundUnc v u).2) [1] [0, 0]) :=
    round_sig_fig_uncertainty_list_ok (by norm_num) (by simp)
  rw [h]
  have he : elemRoundUnc 1 0 = (1, 0) := by
    unfold elemRoundUnc
    rw [if_pos rfl]
  simp [List.zipWith, he]

/-- C4 (amended): there is no length check and no LengthMismatchError.
When the value array is strictly longer, the loop reads past the end of
the uncertainty array and fails with an IndexError; when the uncertainty
array is at least as long, no failure occurs: the extra uncertainty
entries are ignored and both outputs have the length of the value array. -/
theorem roundToUncertainty_length_mismatch_amended :
    (∀ vs us : List ℚ, us.length < vs.length → (∀ u ∈ us, 0 ≤ u) →
        round_sig_fig_uncertainty_list vs us = .error .indexError)
    ∧ (∀ vs us : List ℚ, vs.length ≤ us.length → (∀ u ∈ us.take vs.length, 0 ≤ u) →
        ∃ vo uo, round_sig_fig_uncertainty_list vs us = .ok (vo, uo)
          ∧ vo.length = vs.length ∧ uo.length = vs.length) := by
  constructor
  · intro vs us h hnn
    exact rsfu_list_index_error h hnn
  · intro vs us h hnn
    refine ⟨_, _, round_sig_fig_uncertainty_list_ok h hnn, ?_, ?_⟩
    · rw [List.length_zipWith]
      omega
    · rw [List.length_zipWith]
      omega

/-- C4 witness: both directions of the amended theorem at concrete arrays:
value [1, 1] against uncertainty [0] raises IndexError; value [1] against
uncertainty [0, 0] succeeds with outputs of length 1. -/
theorem roundToUncertainty_length_mismatch_amended_witness :
    (([0] : List ℚ).length < ([1, 1] : List ℚ).length)
    ∧ (∀ u ∈ ([0] : List ℚ), 0 ≤ u)
    ∧ round_sig_fig_uncertainty_list [1, 1] [0] = .error .indexError
    ∧ (([1] : List ℚ).length ≤ ([0, 0] : List ℚ).length)
    ∧ (∀ u ∈ ([0, 0] : List ℚ).take ([1] : List ℚ).length, 0 ≤ u)
    ∧ ∃ vo uo, round_sig_fig_uncertainty_list [1] [0, 0] = .ok (vo, uo)
        ∧ vo.length = ([1] : List ℚ).length ∧ uo.length = ([1] : List ℚ).length :=
  ⟨by norm_num, by simp, (roundToUncertainty_length_mismatch_amended).1 [1, 1] [0]
      (by norm_num) (by simp),
    by norm_num, by simp, (roundToUncertainty_length_mismatch_amended).2 [1] [0, 0]
      (by norm_num) (by simp)⟩

/-- C5: zero uncertainty is a sentinel: a scalar pair (v, 0) is returned
unchanged, and in the array case every element whose paired uncertainty is
0 passes through unchanged while the other elements are still rounded by
the per-element rule. -/
theorem roundToUncertainty_zero_sentinel :
    (∀ v : ℚ, round_sig_fig_uncertainty v 0 = .ok (v, 0))
    ∧ (∀ vs us : List ℚ, vs.length = us.length → (∀ u ∈ us, 0 ≤ u) →
        round_sig_fig_uncertainty_list vs us
          = .ok (List.zipWith
              (fun v u => if u = 0 then v else (elemRoundUnc v u).1) vs us,
            List.zipWith
              (fun v u => if u = 0 then u else (elemRoundUnc v u).2) vs us)) := by
  constructor
  · intro v
    unfold round_sig_fig_uncertainty
    rw [if_neg (by norm_num)]
    unfold elemRoundUnc
    rw [if_pos rfl]
  · intro vs us hlen hnn
    rw [if_zero_fst_eq, if_zero_snd_eq]
    exact round_sig_fig_uncertainty_list_ok (le_of_eq hlen)
      (fun w hw => hnn w (List.mem_of_mem_take hw))

/-- C5 witness: the array part on ([5, 12.3456], [0, 0.07]): the first
element (zero uncertainty) passes through, the second is rounded. -/
theorem roundToUncertainty_zero_sentinel_witness :
    (([5, (123456:ℚ)/10000] : List ℚ).length = ([0, (7:ℚ)/100] : List ℚ).length)
    ∧ (∀ u ∈ ([0, (7:ℚ)/100] : List ℚ), 0 ≤ u)
    ∧ round_sig_fig_uncertainty_list [5, (123456:ℚ)/10000] [0, (7:ℚ)/100]
        = .ok (List.zipWith
            (fun v u => if u = 0 then v else (elemRoundUnc v u).1)
            [5, (123456:ℚ)/10000] [0, (7:ℚ)/100],
          List.zipWith
            (fun v u => if u = 0 then u else (elemRoundUnc v u).2)
            [5, (123456:ℚ)/10000] [0, (7:ℚ)/100]) :=
  ⟨rfl, by norm_num, (roundToUncertainty_zero_sentinel).2 _ _ rfl (by norm_num)⟩

/-- C6: for a nonzero scalar and positive significant-figure count n,
round_sig_fig rounds at decimal place -(e - n + 1) with e = ⌊log10 of the
magnitude⌋ (the formatter's exponent bump at a mantissa of 10 provably
never changes the result); the spec example 0.0004321 → 0.00043 at n = 2
holds; and on an array of any rank it applies that scalar rounding to
every element, recursing one axis at a time. -/
theorem roundToSigFigs_spec :
    (∀ q : ℚ, q ≠ 0 → ∀ n : ℕ, 1 ≤ n →
        round_sig_fig q n = np_round q (-(Int.log 10 |q| - (n : ℤ) + 1)))
    ∧ round_sig_fig ((4321:ℚ)/10000000) 2 = (43:ℚ)/100000
    ∧ (∀ (r : ℕ) (a : Arr r) (n : ℕ),
        arrFlatten r (round_sig_fig_arr r a n)
          = (arrFlatten r a).map (fun q => round_sig_fig q n)) := by
  refine ⟨?_, rsf_example, arrFlatten_round_sig_fig_arr⟩
  intro q hq n hn
  rw [round_sig_fig_eq_np_round_log hq hn]
  congr 1
  ring

/-- C6 witness: the scalar formula applied at 0.0004321 with n = 2. -/
theorem roundToSigFigs_spec_witness :
    ((4321:ℚ)/10000000 ≠ 0) ∧ (1 ≤ 2)
    ∧ round_sig_fig ((4321:ℚ)/10000000) 2
        = np_round ((4321:ℚ)/10000000)
            (-(Int.log 10 |(4321:ℚ)/10000000| - ((2:ℕ) : ℤ) + 1)) :=
  ⟨by norm_num, by norm_num, (roundToSigFigs_spec).1 _ (by norm_num) 2 (by norm_num)⟩
